import Mathlib

/-!
Verification of the request-governing core of the kolosal-cli repository:
ResponseCache, RequestDeduplicator, RateLimiter, CircuitBreaker,
ModelFallbackManager, HistoryCompressor and the CachingContentGenerator
composition.  Each definition below is a shallow embedding of the
corresponding TypeScript function; wall-clock reads (`Date.now()`) become
explicit time parameters, JavaScript floating-point numbers become exact
rationals, and the JavaScript `Map` (insertion-ordered) becomes an
insertion-ordered association list.
-/

/-! ## JSON values and `JSON.stringify`

`RequestDeduplicator.hashRequest` and `ResponseCache.hashKey` canonicalize
request records with `JSON.stringify`; `hashKey` additionally passes the
sorted top-level key names as a replacer array.  We model JSON values with
an explicit `jundef` constructor for JavaScript `undefined` (skipped in
objects, printed as `null` inside arrays) and serialization faithful to
`JSON.stringify` for values built from these constructors.
-/

namespace Json

inductive JValue where
  | jnull : JValue
  | jundef : JValue
  | jbool : Bool → JValue
  | jnum : Int → JValue
  | jstr : String → JValue
  | jarr : List JValue → JValue
  | jobj : List (String × JValue) → JValue

/-- One character of a JSON string literal, with the escapes
`JSON.stringify` emits for quote, backslash and newline. -/
def escChar (c : Char) : String :=
  if c = '\"' then "\\\""
  else if c = '\\' then "\\\\"
  else if c = '\n' then "\\n"
  else String.singleton c

def escape (s : String) : String :=
  String.join (s.toList.map escChar)

def jquote (s : String) : String :=
  "\"" ++ escape s ++ "\""

def lookupField : List (String × JValue) → String → Option JValue
  | [], _ => none
  | (k', v) :: rest, k => if k' = k then some v else lookupField rest k

-- `JSON.stringify(v, propList)` filters, at every nesting level, the
-- properties of every non-array object down to the names in `propList`
-- (serialized in `propList` order); array elements are never filtered.
-- We model this as a recursive restriction pass followed by plain
-- serialization, which is observationally the same.
mutual

def applyRep (ks : List String) : JValue → JValue
  | .jobj fs =>
      .jobj (ks.filterMap (fun k =>
        (lookupField (applyRepFields ks fs) k).map (fun v => (k, v))))
  | .jarr xs => .jarr (applyRepList ks xs)
  | v => v

def applyRepList (ks : List String) : List JValue → List JValue
  | [] => []
  | x :: xs => applyRep ks x :: applyRepList ks xs

def applyRepFields (ks : List String) :
    List (String × JValue) → List (String × JValue)
  | [] => []
  | (k, v) :: rest => (k, applyRep ks v) :: applyRepFields ks rest

end

-- Plain `JSON.stringify` (no replacer).  Returns `none` exactly when
-- JavaScript returns `undefined` (i.e. on `undefined` itself); properties
-- whose value serializes to `undefined` are skipped, array elements print
-- `null`.
mutual

def jserialize : JValue → Option String
  | .jnull => some "null"
  | .jundef => none
  | .jbool b => some (if b then "true" else "false")
  | .jnum n => some (toString n)
  | .jstr s => some (jquote s)
  | .jarr xs => some ("[" ++ String.intercalate "," (jserializeArr xs) ++ "]")
  | .jobj fs =>
      some ("\x7b" ++ String.intercalate "," (jserializeObj fs) ++ "\x7d")

def jserializeArr : List JValue → List String
  | [] => []
  | x :: xs =>
      (match jserialize x with
       | some s => s
       | none => "null") :: jserializeArr xs

def jserializeObj : List (String × JValue) → List String
  | [] => []
  | (k, v) :: rest =>
      (match jserialize v with
       | some s => [jquote k ++ ":" ++ s]
       | none => []) ++ jserializeObj rest

end

/-- `JSON.stringify(v)` coerced to a string; the `undefined` result never
occurs for the object-valued inputs the repository serializes. -/
def stringifyD (v : JValue) : String :=
  (jserialize v).getD "undefined"

/-- `JSON.stringify(v, replacerKeys)`. -/
def stringifyWith (ks : List String) (v : JValue) : String :=
  stringifyD (applyRep ks v)

/-- Lexicographic code-unit comparison, as JavaScript's default string
sort compares. -/
def keyLe : List Char → List Char → Bool
  | [], _ => true
  | _ :: _, [] => false
  | a :: as, b :: bs =>
      if a.toNat < b.toNat then true
      else if b.toNat < a.toNat then false
      else keyLe as bs

/-- Lexicographic insertion into a sorted list of key names. -/
def insertKey (a : String) : List String → List String
  | [] => [a]
  | b :: bs => if keyLe a.toList b.toList then a :: b :: bs else b :: insertKey a bs

def sortKeys : List String → List String
  | [] => []
  | a :: as => insertKey a (sortKeys as)

/-- Sorted key names, as `Object.keys(params).sort()` produces (JS sorts
strings lexicographically by code unit; our keys are plain ASCII). -/
def sortedKeys (fields : List (String × JValue)) : List String :=
  sortKeys (fields.map Prod.fst)

end Json

/-! ## RateLimiter (token bucket), from src/packages/core/src/core/rateLimiter.ts

JavaScript floating-point token counts become exact rationals.  `Date.now()`
differences are modelled by passing each operation the elapsed wall-clock
milliseconds since the previous refill (`now - lastRefill`), which is
nonnegative for a monotone clock; `refill` sets `lastRefill := now`, so the
elapsed durations of successive operations are independent inputs.
-/

namespace RateLimiter

structure RLOptions where
  maxTokens : ℚ
  refillRate : ℚ
  deriving Repr, DecidableEq

structure RLState where
  tokens : ℚ
  opts : RLOptions
  deriving Repr, DecidableEq

/-- `refill()`: `tokens = min(maxTokens, tokens + elapsedSeconds * refillRate)`. -/
def refill (s : RLState) (elapsedMs : ℚ) : RLState :=
  let tokensToAdd := elapsedMs / 1000 * s.opts.refillRate
  { s with tokens := min s.opts.maxTokens (s.tokens + tokensToAdd) }

/-- `tryAcquire(n)`: refill first, then debit iff `tokens >= n`. -/
def tryAcquire (s : RLState) (n : ℚ) (elapsedMs : ℚ) : Bool × RLState :=
  let s := refill s elapsedMs
  if n ≤ s.tokens then (true, { s with tokens := s.tokens - n })
  else (false, s)

/-- `acquire(n)`: refill; if short, wait `(n - tokens)/refillRate` seconds,
refill again and force-debit `n`.  `slackMs ≥ 0` is how much longer than the
computed wait the timer actually slept (`setTimeout` never fires early). -/
def acquire (s : RLState) (n elapsed1 slackMs : ℚ) : RLState :=
  let s := refill s elapsed1
  if n ≤ s.tokens then { s with tokens := s.tokens - n }
  else
    let needed := n - s.tokens
    let waitMs := needed / s.opts.refillRate * 1000
    let s := refill s (waitMs + slackMs)
    { s with tokens := s.tokens - n }

/-- `getWaitTime(n)`: refills (mutating), computes the shortfall wait. -/
def getWaitTime (s : RLState) (n elapsedMs : ℚ) : ℚ × RLState :=
  let s := refill s elapsedMs
  if n ≤ s.tokens then (0, s)
  else ((n - s.tokens) / s.opts.refillRate * 1000, s)

/-- `getAvailableTokens()`: refills (mutating), returns the count. -/
def getAvailableTokens (s : RLState) (elapsedMs : ℚ) : ℚ × RLState :=
  let s := refill s elapsedMs
  (s.tokens, s)

/-- `reset()`: back to full capacity. -/
def reset (s : RLState) : RLState :=
  { s with tokens := s.opts.maxTokens }

/-- A `Partial<RateLimiterOptions>` argument to `setOptions`. -/
structure RLOptionsPatch where
  newMaxTokens : Option ℚ
  newRefillRate : Option ℚ
  deriving Repr, DecidableEq

/-- `setOptions(patch)`: merge, then clamp `tokens` to the new ceiling. -/
def setOptions (s : RLState) (p : RLOptionsPatch) : RLState :=
  let o : RLOptions :=
    { maxTokens := p.newMaxTokens.getD s.opts.maxTokens
      refillRate := p.newRefillRate.getD s.opts.refillRate }
  { tokens := min s.tokens o.maxTokens, opts := o }

/-- One public operation on the limiter, with its elapsed-time inputs. -/
inductive RLOp where
  | tryAcq (n elapsedMs : ℚ)
  | acq (n elapsed1 slackMs : ℚ)
  | waitTime (n elapsedMs : ℚ)
  | avail (elapsedMs : ℚ)
  | doReset
  | setOpts (p : RLOptionsPatch)
  deriving Repr, DecidableEq

def rlStep (s : RLState) : RLOp → RLState
  | .tryAcq n e => (tryAcquire s n e).2
  | .acq n e sl => acquire s n e sl
  | .waitTime n e => (getWaitTime s n e).2
  | .avail e => (getAvailableTokens s e).2
  | .doReset => reset s
  | .setOpts p => setOptions s p

def rlRun (s : RLState) (ops : List RLOp) : RLState :=
  ops.foldl rlStep s

/-- Environment/usage assumptions for one operation: elapsed times are
nonnegative (monotone clock), requested token counts are nonnegative, an
`acquire` never requests more than the current capacity, and options are
only ever set to positive values. -/
def RLOpValid (s : RLState) : RLOp → Prop
  | .tryAcq n e => 0 ≤ n ∧ 0 ≤ e
  | .acq n e sl => 0 ≤ n ∧ n ≤ s.opts.maxTokens ∧ 0 ≤ e ∧ 0 ≤ sl
  | .waitTime _ e => 0 ≤ e
  | .avail e => 0 ≤ e
  | .doReset => True
  | .setOpts p =>
      0 < p.newMaxTokens.getD s.opts.maxTokens ∧
      0 < p.newRefillRate.getD s.opts.refillRate

def RLValid (s : RLState) : List RLOp → Prop
  | [] => True
  | op :: ops => RLOpValid s op ∧ RLValid (rlStep s op) ops

/-- The token-bucket data-model invariant: `tokens ∈ [0, maxTokens]`,
with positive configuration. -/
def RLInv (s : RLState) : Prop :=
  0 ≤ s.tokens ∧ s.tokens ≤ s.opts.maxTokens ∧
  0 < s.opts.maxTokens ∧ 0 < s.opts.refillRate

end RateLimiter

/-! ## CircuitBreaker, from the circuit-breaker source file (src/unnamed/part_006)

Timestamps are integers (milliseconds); every method that reads
`Date.now()` takes the current time `now` explicitly and threads the
mutable instance state.
-/

namespace CircuitBreaker

inductive CircuitSt where
  | closed
  | opened
  | halfOpen
  deriving Repr, DecidableEq

structure CBOptions where
  failureThreshold : Nat
  resetTimeout : Int
  windowMs : Int
  successRateThreshold : Option ℚ
  deriving Repr, DecidableEq

structure CBState where
  state : CircuitSt
  failures : List Int
  successes : List Int
  lastFailure : Int
  lastStateChange : Int
  deriving Repr, DecidableEq

/-- A freshly constructed breaker (constructor runs at time `t0`). -/
def initial (t0 : Int) : CBState :=
  { state := .closed, failures := [], successes := []
    lastFailure := 0, lastStateChange := t0 }

/-- `transitionTo(newState)`: closing the circuit clears both record lists. -/
def transitionTo (s : CBState) (newState : CircuitSt) (now : Int) : CBState :=
  if s.state ≠ newState then
    let s := { s with state := newState, lastStateChange := now }
    if newState = .closed then { s with failures := [], successes := [] }
    else s
  else s

/-- `cleanupOldRecords()`: drop timestamps at or before `now - windowMs`. -/
def cleanupOldRecords (o : CBOptions) (s : CBState) (now : Int) : CBState :=
  let cutoff := now - o.windowMs
  { s with failures := s.failures.filter (fun t => cutoff < t)
           successes := s.successes.filter (fun t => cutoff < t) }

/-- `shouldOpen()`: failure count reaches the threshold, or (when a success
rate threshold is configured and the window total reaches the threshold)
the success rate is below it. -/
def shouldOpen (o : CBOptions) (s : CBState) : Prop :=
  o.failureThreshold ≤ s.failures.length ∨
    (match o.successRateThreshold with
     | some θ =>
        o.failureThreshold ≤ s.failures.length + s.successes.length ∧
        (s.successes.length : ℚ) / (s.failures.length + s.successes.length : ℚ) < θ
     | none => False)

instance (o : CBOptions) (s : CBState) : Decidable (shouldOpen o s) := by
  unfold shouldOpen
  cases o.successRateThreshold <;> simp <;> infer_instance

/-- `recordSuccess()`. -/
def recordSuccess (o : CBOptions) (s : CBState) (now : Int) : CBState :=
  let s := { s with successes := s.successes ++ [now] }
  let s := cleanupOldRecords o s now
  if s.state = .halfOpen then transitionTo s .closed now else s

/-- `recordFailure()`. -/
def recordFailure (o : CBOptions) (s : CBState) (now : Int) : CBState :=
  let s := { s with failures := s.failures ++ [now], lastFailure := now }
  let s := cleanupOldRecords o s now
  if s.state = .halfOpen then transitionTo s .opened now
  else if shouldOpen o s then transitionTo s .opened now
  else s

/-- `checkStateTransition()`: the lazy OPEN → HALF_OPEN cooldown check. -/
def checkStateTransition (o : CBOptions) (s : CBState) (now : Int) : CBState :=
  if s.state = .opened ∧ o.resetTimeout ≤ now - s.lastStateChange then
    transitionTo s .halfOpen now
  else s

/-- `getState()`: performs the lazy transition, returns the new state. -/
def getState (o : CBOptions) (s : CBState) (now : Int) : CBState × CircuitSt :=
  let s := checkStateTransition o s now
  (s, s.state)

/-- `isAllowed()`: CLOSED or HALF_OPEN after the lazy transition. -/
def isAllowed (o : CBOptions) (s : CBState) (now : Int) : CBState × Bool :=
  let (s, st) := getState o s now
  (s, st = .closed ∨ st = .halfOpen)

end CircuitBreaker

/-! ## ResponseCache, from the cache source file (src/unnamed/part_005)

The JavaScript `Map<string, CacheEntry>` (insertion-ordered, unique keys)
becomes an association list; `accessOrder` is the LRU list, oldest first.
`Date.now()` becomes an explicit `now : Int` parameter.  Mutating methods
return the new state.
-/

namespace ResponseCache

structure CacheEntry (α : Type) where
  value : α
  timestamp : Int
  ttl : Int
  deriving Repr, DecidableEq

structure CacheOptions where
  ttl : Int
  maxSize : Nat
  enabled : Bool
  deriving Repr, DecidableEq

/-- Constructor defaults: 5 minutes TTL, 100 entries, enabled. -/
def defaultOptions : CacheOptions :=
  { ttl := 5 * 60 * 1000, maxSize := 100, enabled := true }

structure CacheState (α : Type) where
  cache : List (String × CacheEntry α)
  accessOrder : List String
  options : CacheOptions
  deriving Repr, DecidableEq

def emptyCache (α : Type) (o : CacheOptions) : CacheState α :=
  { cache := [], accessOrder := [], options := o }

/-- `Map.get`. -/
def mapGet {α : Type} : List (String × CacheEntry α) → String → Option (CacheEntry α)
  | [], _ => none
  | (k', v) :: rest, k => if k' = k then some v else mapGet rest k

/-- `Map.set`: replace in place when present, else append (insertion order). -/
def mapSet {α : Type} : List (String × CacheEntry α) → String → CacheEntry α →
    List (String × CacheEntry α)
  | [], k, v => [(k, v)]
  | (k', v') :: rest, k, v =>
      if k' = k then (k, v) :: rest else (k', v') :: mapSet rest k v

/-- `Map.delete`: removes the entry with that key (`Map` keys are unique,
so deleting the first occurrence is exact). -/
def mapDelete {α : Type} : List (String × CacheEntry α) → String →
    List (String × CacheEntry α)
  | [], _ => []
  | (k', v) :: rest, k => if k' = k then rest else (k', v) :: mapDelete rest k

/-- `removeFromAccessOrder(key)`: `indexOf` + `splice(index, 1)`, i.e.
remove the first occurrence. -/
def removeFromAccessOrder : List String → String → List String
  | [], _ => []
  | x :: xs, k => if x = k then xs else x :: removeFromAccessOrder xs k

/-- `updateAccessOrder(key)`: remove, then push at most-recently-used end. -/
def updateAccessOrder (ao : List String) (k : String) : List String :=
  removeFromAccessOrder ao k ++ [k]

/-- `evictOldest()`: drop the head of the access order and its map entry. -/
def evictOldest {α : Type} (s : CacheState α) : CacheState α :=
  match s.accessOrder with
  | [] => s
  | oldestKey :: rest =>
      { s with cache := mapDelete s.cache oldestKey, accessOrder := rest }

/-- `get(key)` (the key already resolved to its cache-key string).  Expired
entries (`now - timestamp > ttl`) are deleted as a side effect; a hit moves
the key to most-recently-used. -/
def get {α : Type} (s : CacheState α) (cacheKey : String) (now : Int) :
    Option α × CacheState α :=
  if !s.options.enabled then (none, s)
  else
    match mapGet s.cache cacheKey with
    | none => (none, s)
    | some entry =>
        if entry.ttl < now - entry.timestamp then
          (none, { s with cache := mapDelete s.cache cacheKey
                          accessOrder := removeFromAccessOrder s.accessOrder cacheKey })
        else
          (some entry.value,
           { s with accessOrder := updateAccessOrder s.accessOrder cacheKey })

/-- `set(key, value, ttl?)`: when full and the key is new, evict the oldest
first, then insert. -/
def set {α : Type} (s : CacheState α) (cacheKey : String) (value : α)
    (ttl : Option Int) (now : Int) : CacheState α :=
  if !s.options.enabled then s
  else
    let effectiveTtl := ttl.getD s.options.ttl
    let s :=
      if s.options.maxSize ≤ s.cache.length ∧ (mapGet s.cache cacheKey).isNone
      then evictOldest s else s
    { s with cache := mapSet s.cache cacheKey
               { value := value, timestamp := now, ttl := effectiveTtl }
             accessOrder := updateAccessOrder s.accessOrder cacheKey }

/-- `has(key)`: `get(key) !== null` (shares `get`'s side effects). -/
def has {α : Type} (s : CacheState α) (cacheKey : String) (now : Int) :
    Bool × CacheState α :=
  let (v, s) := get s cacheKey now
  (v.isSome, s)

/-- `hashKey(params)`: SHA-256 of `JSON.stringify(params, sortedKeys)`.
The digest primitive is abstract (`digest`); everything the claims need
follows from `digest` being a function of the normalized string. -/
def normalizeKey (params : List (String × Json.JValue)) : String :=
  Json.stringifyWith (Json.sortedKeys params) (.jobj params)

def hashKey (digest : String → String) (params : List (String × Json.JValue)) :
    String :=
  digest (normalizeKey params)

/-- Well-formedness tying `accessOrder` to the key set: the access order
lists exactly the cache's keys, each exactly once. -/
def WF {α : Type} (s : CacheState α) : Prop :=
  s.accessOrder.Nodup ∧ (s.cache.map Prod.fst).Perm s.accessOrder

end ResponseCache

/-! ## ModelFallbackManager, from src/packages/core/src/core/modelFallback.ts

The `Map<string, ModelConfig>` becomes an insertion-ordered list of
configurations.  JavaScript's stable `Array.prototype.sort` with comparator
`a.priority - b.priority` becomes a stable insertion sort.  Errors are
modelled by the fields the code inspects: whether the thrown value is an
`Error` instance, and its optional `status` / `statusCode` numbers.
-/

namespace ModelFallback

structure MFModel where
  model : String
  priority : Int
  healthy : Bool
  failureCount : Nat
  lastFailure : Option Int
  deriving Repr, DecidableEq

structure MFOptions where
  maxFailures : Nat
  recoveryTimeout : Int
  autoRecover : Bool
  deriving Repr, DecidableEq

structure MFState where
  models : List MFModel
  currentModel : Option String
  deriving Repr, DecidableEq

def mfInitial : MFState := { models := [], currentModel := none }

/-- Stable insertion preserving original order among equal priorities,
matching JavaScript's stable sort with `a.priority - b.priority`. -/
def insertByPriority (m : MFModel) : List MFModel → List MFModel
  | [] => [m]
  | x :: xs =>
      if m.priority ≤ x.priority then m :: x :: xs
      else x :: insertByPriority m xs

def sortByPriority (l : List MFModel) : List MFModel :=
  l.foldr insertByPriority []

def healthyModels (s : MFState) : List MFModel :=
  s.models.filter (fun m => m.healthy)

/-- `updateCurrentModel()`: first element of the healthy models sorted by
ascending priority, or `null`. -/
def updateCurrentModel (s : MFState) : MFState :=
  { s with currentModel := ((sortByPriority (healthyModels s)).head?).map (·.model) }

/-- `Map.set` on the model registry: replace in place or append. -/
def registrySet : List MFModel → MFModel → List MFModel
  | [], m => [m]
  | x :: xs, m => if x.model = m.model then m :: xs else x :: registrySet xs m

def registryGet (l : List MFModel) (id : String) : Option MFModel :=
  l.find? (fun m => m.model = id)

def registryUpdate (l : List MFModel) (id : String) (f : MFModel → MFModel) :
    List MFModel :=
  l.map (fun m => if m.model = id then f m else m)

/-- `addModel(config)`: registered as healthy with a zero failure count,
then the current model is recomputed. -/
def addModel (s : MFState) (model : String) (priority : Int) : MFState :=
  let cfg : MFModel :=
    { model := model, priority := priority, healthy := true
      failureCount := 0, lastFailure := none }
  let s := { s with models := registrySet s.models cfg }
  updateCurrentModel s

/-- `removeModel(id)`: recompute only when the removed model was current. -/
def removeModel (s : MFState) (id : String) : MFState :=
  let s := { s with models := s.models.filter (fun m => ¬ m.model = id) }
  if s.currentModel = some id then updateCurrentModel s else s

/-- `recordSuccess(id)`: clears the failure count and marks healthy —
note that it does NOT recompute the current model. -/
def recordSuccess (s : MFState) (id : String) : MFState :=
  let ms := registryUpdate s.models id
    (fun m => { m with failureCount := 0, healthy := true })
  { s with models := ms }

/-- `recordFailure(id)`: bump the counter; once it reaches `maxFailures`,
mark unhealthy and recompute the current model. -/
def recordFailure (o : MFOptions) (s : MFState) (id : String) (now : Int) :
    MFState :=
  match registryGet s.models id with
  | none => s
  | some config =>
      let newCount := config.failureCount + 1
      let ms := registryUpdate s.models id
        (fun m => { m with failureCount := newCount, lastFailure := some now })
      let s := { s with models := ms }
      if o.maxFailures ≤ newCount then
        let ms2 := registryUpdate s.models id
          (fun m => { m with healthy := false })
        updateCurrentModel { s with models := ms2 }
      else s

/-- `forceHealthy(id)`: only acts when the model is registered. -/
def forceHealthy (s : MFState) (id : String) : MFState :=
  match registryGet s.models id with
  | none => s
  | some _ =>
      let ms := registryUpdate s.models id
        (fun m => { m with healthy := true, failureCount := 0 })
      updateCurrentModel { s with models := ms }

/-- `forceUnhealthy(id)`: only acts when the model is registered. -/
def forceUnhealthy (s : MFState) (id : String) : MFState :=
  match registryGet s.models id with
  | none => s
  | some _ =>
      let ms := registryUpdate s.models id
        (fun m => { m with healthy := false })
      updateCurrentModel { s with models := ms }

/-- The invariant the spec asserts for the registry: the cached
`currentModel` is a healthy model of minimal priority value (or absent
when none is healthy). -/
def IsLowestHealthy (s : MFState) : Prop :=
  (healthyModels s = [] ∧ s.currentModel = none) ∨
  (∃ m, m ∈ healthyModels s ∧ s.currentModel = some m.model ∧
     ∀ x ∈ healthyModels s, m.priority ≤ x.priority)

/-- The thrown value, as far as `shouldFallback`/`getErrorStatus` inspect
it: `Error`-instance flag and the optional HTTP-ish status fields. -/
structure JsError where
  isErrorInstance : Bool
  status : Option Int
  statusCode : Option Int
  deriving Repr, DecidableEq

/-- `getErrorStatus`: `error.status || error.statusCode` with JavaScript
truthiness (`0` falls through to `statusCode`). -/
def getErrorStatus (e : JsError) : Option Int :=
  match e.status with
  | some s => if s ≠ 0 then some s else e.statusCode
  | none => e.statusCode

/-- `shouldFallback(error)`: non-`Error` throws are eligible; a truthy
status in `[400, 500)` other than `429` is terminal. -/
def shouldFallback (e : JsError) : Bool :=
  if !e.isErrorInstance then true
  else
    match getErrorStatus e with
    | some st =>
        if st ≠ 0 ∧ 400 ≤ st ∧ st < 500 ∧ st ≠ 429 then false else true
    | none => true

/-- The outcomes `executeWithFallback` can produce. -/
inductive FbError where
  | thrown (e : JsError)
  | noHealthyModels
  | allModelsFailed
  deriving Repr, DecidableEq

/-- The loop body of `executeWithFallback`, over the snapshot of healthy
models sorted by priority.  `fn` gives each model's (deterministic)
outcome; `now` stands for the clock reads during failure recording.
Returns the result, the list of model ids actually tried (in order), and
the mutated manager state. -/
def tryModels {α : Type} (o : MFOptions) (fn : String → Except JsError α)
    (now : Int) (s : MFState) :
    List MFModel → Option JsError → Except FbError (α × String) × List String × MFState
  | [], lastError =>
      (match lastError with
       | some e => .error (.thrown e)
       | none => .error .allModelsFailed, [], s)
  | m :: rest, _ =>
      match fn m.model with
      | .ok v => (.ok (v, m.model), [m.model], recordSuccess s m.model)
      | .error e =>
          let s := recordFailure o s m.model now
          if shouldFallback e then
            let (r, tr, s') := tryModels o fn now s rest (some e)
            (r, m.model :: tr, s')
          else (.error (.thrown e), [m.model], s)
  termination_by l _ => l.length

/-- `executeWithFallback(fn)`. -/
def executeWithFallback {α : Type} (o : MFOptions) (s : MFState)
    (fn : String → Except JsError α) (now : Int) :
    Except FbError (α × String) × List String × MFState :=
  let sortedModels := sortByPriority (healthyModels s)
  match sortedModels with
  | [] => (.error .noHealthyModels, [], s)
  | l => tryModels o fn now s l none

end ModelFallback

/-! ## RequestDeduplicator, from src/packages/core/src/core/requestDeduplicator.ts

`deduplicate` runs no `await` between the in-flight lookup and the
registration, so under the cooperative single-threaded scheduler a batch of
concurrent calls that all arrive while none has settled is processed as a
sequence of atomic lookup-or-register steps.  Promises are identified by a
serial number; an outcome assignment `Nat → α` then says what each promise
eventually settles to, and every awaiter of the same promise observes the
same outcome.
-/

namespace Dedup

/-- The fields of `GenerateContentParameters` that `hashRequest` reads. -/
structure DedupParams where
  model : String
  contents : Json.JValue
  config : Option Json.JValue

/-- `hashRequest(params)`: `JSON.stringify` of the normalized record
`{ model, contents: JSON.stringify(contents), config: JSON.stringify(config || {}) }`. -/
def hashRequest (p : DedupParams) : String :=
  Json.stringifyD (.jobj
    [("model", .jstr p.model),
     ("contents", .jstr (Json.stringifyD p.contents)),
     ("config", .jstr (Json.stringifyD (p.config.getD (.jobj []))))])

/-- One lookup-or-register step of `deduplicate` over the in-flight map.
Returns the map afterwards, the next fresh promise id, the promise this
caller awaits, and whether the executor was invoked by this caller. -/
def dedupArrive (inFlight : List (String × Nat)) (nextId : Nat) (key : String) :
    List (String × Nat) × Nat × Nat × Bool :=
  match inFlight.find? (fun kv => kv.1 = key) with
  | some kv => (inFlight, nextId, kv.2, false)
  | none => (inFlight ++ [(key, nextId)], nextId + 1, nextId, true)

/-- A batch of concurrent `deduplicate` calls, processed in arrival order
with no settlement in between.  Returns the final in-flight map, the next
fresh id, the promise each caller awaits (in batch order), and how many
times the executor ran. -/
def dedupBatch (inFlight : List (String × Nat)) (nextId : Nat) :
    List DedupParams → List (String × Nat) × Nat × List Nat × Nat
  | [] => (inFlight, nextId, [], 0)
  | p :: ps =>
      let (m, nid, pid, invoked) := dedupArrive inFlight nextId (hashRequest p)
      let (m', nid', pids, cnt) := dedupBatch m nid ps
      (m', nid', pid :: pids, cnt + (if invoked then 1 else 0))

end Dedup

/-! ## HistoryCompressor, from src/packages/core/src/core/historyCompressor.ts

A `Part` is modelled by the fields the compressor reads: optional free
text, and optional function-call / function-response payloads represented
by their `JSON.stringify` serialization (the code only ever takes that
serialization's length or carries the part through verbatim).
`charsPerToken` is modelled as a positive natural number (the shipped
default is 4), so `Math.ceil(chars / charsPerToken)` is exact ceiling
division.
-/

namespace Compressor

structure Part where
  text : Option String
  functionCall : Option String
  functionResponse : Option String
  otherData : Bool
  deriving Repr, DecidableEq

structure Content where
  role : String
  parts : Option (List Part)
  deriving Repr, DecidableEq

structure CompressionOptions where
  maxTokens : Nat
  preserveRecentTurns : Nat
  preserveToolCalls : Bool
  charsPerToken : Nat
  deriving Repr, DecidableEq

def defaultCompression : CompressionOptions :=
  { maxTokens := 8000, preserveRecentTurns := 4
    preserveToolCalls := true, charsPerToken := 4 }

/-- Character count of one part as `estimateTokens` accumulates it
(JavaScript truthiness: empty strings contribute 0 either way). -/
def partChars (p : Part) : Nat :=
  (p.text.getD "").length + (p.functionCall.getD "").length +
    (p.functionResponse.getD "").length

/-- `estimateTokens(content) = ceil(chars / charsPerToken)`. -/
def estimateTokens (o : CompressionOptions) (c : Content) : Nat :=
  match c.parts with
  | none => 0
  | some ps =>
      let chars := (ps.map partChars).sum
      (chars + o.charsPerToken - 1) / o.charsPerToken

def totalTokens (o : CompressionOptions) (h : List Content) : Nat :=
  (h.map (estimateTokens o)).sum

/-- `hasToolCalls(content)`. -/
def hasToolCalls (c : Content) : Bool :=
  match c.parts with
  | none => false
  | some ps => ps.any (fun p => p.functionCall.isSome ∨ p.functionResponse.isSome)

/-- `summarizeText(text, maxLength)`: keep a head and a tail excerpt joined
by an explicit truncation marker. -/
def summarizeText (text : String) (maxLength : Nat) : String :=
  if text.length ≤ maxLength then text
  else
    let half := maxLength / 2 - 10
    text.take half ++ "\n...[truncated]...\n" ++ text.takeRight half

/-- `compressContent(content, aggressive)`. -/
def compressContent (o : CompressionOptions) (c : Content) (aggressive : Bool) :
    Content :=
  match c.parts with
  | none => c
  | some ps =>
      let newParts := ps.foldr (fun p acc =>
        if p.functionCall.isSome ∨ p.functionResponse.isSome then
          if o.preserveToolCalls ∨ !aggressive then p :: acc else acc
        else
          match p.text with
          | some t =>
              if t.length ≠ 0 then
                let maxChars := if aggressive then 500 else 2000
                { p with text := some (summarizeText t maxChars) } :: acc
              else p :: acc
          | none => p :: acc) []
      { c with parts := some newParts }

/-- The `for (let i = 0; i < preserveFrom; i++)` loop over the older turns,
threading `olderTokensUsed`.  Returns the compressed older turns and the
final used count. -/
def olderLoop (o : CompressionOptions) (olderBudget : Nat) :
    List Content → Nat → List Content × Nat
  | [], used => ([], used)
  | c :: rest, used =>
      let originalTokens := estimateTokens o c
      if olderBudget < used + originalTokens then
        if !hasToolCalls c ∧ !o.preserveToolCalls then
          olderLoop o olderBudget rest used
        else
          let cc := compressContent o c true
          let newTokens := estimateTokens o cc
          if used + newTokens ≤ olderBudget then
            let (l, u) := olderLoop o olderBudget rest (used + newTokens)
            (cc :: l, u)
          else olderLoop o olderBudget rest used
      else
        let cc := compressContent o c false
        let (l, u) := olderLoop o olderBudget rest (used + estimateTokens o cc)
        (cc :: l, u)

/-- The synthetic marker turn prepended when older turns were dropped. -/
def compressionMarker : Content :=
  { role := "user"
    parts := some [{ text := some "[Earlier conversation compressed for context]"
                     functionCall := none, functionResponse := none
                     otherData := false }] }

/-- `compress(history)`. -/
def compress (o : CompressionOptions) (history : List Content) : List Content :=
  if history.length = 0 then []
  else if totalTokens o history ≤ o.maxTokens then history
  else
    let preserveFrom := history.length - o.preserveRecentTurns * 2
    let recentTurns := history.drop preserveFrom
    let recentTokens := totalTokens o recentTurns
    let olderBudget := o.maxTokens - recentTokens
    let (compressed, _) := olderLoop o olderBudget (history.take preserveFrom) 0
    let compressed :=
      if compressed.length < preserveFrom ∧ 0 < preserveFrom then
        compressionMarker :: compressed
      else compressed
    compressed ++ recentTurns

end Compressor

/-! ## CachingContentGenerator cache keys,
from src/packages/core/src/core/cachingContentGenerator.ts -/

namespace CachingGen

/-- The generation-config fields `getCacheKey` reads
(`req.config?.temperature` etc.); absent fields are `undefined`. -/
structure GenConfig where
  temperature : Option Json.JValue
  topK : Option Json.JValue
  topP : Option Json.JValue
  maxOutputTokens : Option Json.JValue

structure GenRequest where
  model : String
  contents : Json.JValue
  config : Option GenConfig

/-- Optional chaining `req.config?.field` as a JSON value. -/
def optField (req : GenRequest) (f : GenConfig → Option Json.JValue) :
    Json.JValue :=
  ((req.config.bind f).getD .jundef)

/-- `getCacheKey(req)`: the structured record passed to the cache, with its
top-level keys in object-literal insertion order. -/
def getCacheKey (req : GenRequest) : List (String × Json.JValue) :=
  [("model", .jstr req.model),
   ("contents", req.contents),
   ("temperature", optField req (·.temperature)),
   ("topK", optField req (·.topK)),
   ("topP", optField req (·.topP)),
   ("maxTokens", optField req (·.maxOutputTokens))]

end CachingGen


/-! # Theorems -/

/-! ## Association-list helper lemmas for the cache -/

namespace ResponseCache

theorem mapGet_eq_none_of_not_mem {α : Type} (l : List (String × CacheEntry α))
    (k : String) (h : k ∉ l.map Prod.fst) : mapGet l k = none := by
  induction l with
  | nil => rfl
  | cons kv rest ih =>
      obtain ⟨a, b⟩ := kv
      simp only [List.map_cons, List.mem_cons, not_or] at h
      have ha : a ≠ k := fun hh => h.1 hh.symm
      simp only [mapGet, if_neg ha]
      exact ih h.2

theorem mapGet_isSome_of_mem {α : Type} (l : List (String × CacheEntry α))
    (k : String) (h : k ∈ l.map Prod.fst) : (mapGet l k).isSome := by
  induction l with
  | nil => simp at h
  | cons kv rest ih =>
      obtain ⟨a, b⟩ := kv
      by_cases hk : a = k
      · simp [mapGet, hk]
      · simp only [List.map_cons, List.mem_cons] at h
        rcases h with h | h
        · exact absurd h.symm hk
        · simp only [mapGet, if_neg hk]
          exact ih h

theorem mapGet_mapDelete_self {α : Type} (l : List (String × CacheEntry α))
    (k : String) (hnd : (l.map Prod.fst).Nodup) :
    mapGet (mapDelete l k) k = none := by
  induction l with
  | nil => rfl
  | cons kv rest ih =>
      obtain ⟨a, b⟩ := kv
      simp only [List.map_cons, List.nodup_cons] at hnd
      by_cases hk : a = k
      · simp only [mapDelete, if_pos hk]
        exact mapGet_eq_none_of_not_mem rest k (hk ▸ hnd.1)
      · simp only [mapDelete, if_neg hk, mapGet, if_neg hk]
        exact ih hnd.2

theorem mapGet_mapDelete_ne {α : Type} (l : List (String × CacheEntry α))
    (k k' : String) (h : k' ≠ k) :
    mapGet (mapDelete l k) k' = mapGet l k' := by
  induction l with
  | nil => rfl
  | cons kv rest ih =>
      obtain ⟨a, b⟩ := kv
      by_cases hk : a = k
      · have ha : a ≠ k' := fun hh => h (hh ▸ hk)
        simp only [mapDelete, if_pos hk, mapGet, if_neg ha]
      · simp only [mapDelete, if_neg hk, mapGet]
        by_cases hk' : a = k' <;> simp [hk', ih]

theorem mapGet_mapSet_self {α : Type} (l : List (String × CacheEntry α))
    (k : String) (v : CacheEntry α) : mapGet (mapSet l k v) k = some v := by
  induction l with
  | nil => simp [mapSet, mapGet]
  | cons kv rest ih =>
      obtain ⟨a, b⟩ := kv
      by_cases hk : a = k
      · simp [mapSet, mapGet, hk]
      · simp [mapSet, mapGet, hk, ih]

theorem mapGet_mapSet_ne {α : Type} (l : List (String × CacheEntry α))
    (k k' : String) (v : CacheEntry α) (h : k' ≠ k) :
    mapGet (mapSet l k v) k' = mapGet l k' := by
  have hkk : k ≠ k' := fun hh => h hh.symm
  induction l with
  | nil => simp [mapSet, mapGet, hkk]
  | cons kv rest ih =>
      obtain ⟨a, b⟩ := kv
      by_cases hk : a = k
      · simp [mapSet, mapGet, hk, hkk]
      · by_cases hk' : a = k'
        · simp [mapSet, mapGet, hk, hk', h]
        · simp [mapSet, mapGet, hk, hk', ih]

theorem mapSet_of_not_found {α : Type} (l : List (String × CacheEntry α))
    (k : String) (v : CacheEntry α) (h : mapGet l k = none) :
    mapSet l k v = l ++ [(k, v)] := by
  induction l with
  | nil => rfl
  | cons kv rest ih =>
      obtain ⟨a, b⟩ := kv
      by_cases hk : a = k
      · simp [mapGet, hk] at h
      · simp only [mapGet, if_neg hk] at h
        simp [mapSet, hk, ih h]

theorem length_mapDelete_of_mem {α : Type} (l : List (String × CacheEntry α))
    (k : String) (h : k ∈ l.map Prod.fst) :
    (mapDelete l k).length + 1 = l.length := by
  induction l with
  | nil => simp at h
  | cons kv rest ih =>
      obtain ⟨a, b⟩ := kv
      by_cases hk : a = k
      · simp [mapDelete, hk]
      · simp only [List.map_cons, List.mem_cons] at h
        rcases h with h | h
        · exact absurd h.symm hk
        · simp only [mapDelete, if_neg hk, List.length_cons]
          rw [← ih h]

end ResponseCache

/-- Claim C7: a `get` whose stored entry has expired (`now - storedAt > ttl`)
returns absent and deletes the entry as a side effect, so an immediately
subsequent `has(key)` returns false. -/
theorem c7_expired_get_removes {α : Type} (s : ResponseCache.CacheState α)
    (key : String) (now now' : Int) (e : ResponseCache.CacheEntry α)
    (hen : s.options.enabled = true)
    (hnd : (s.cache.map Prod.fst).Nodup)
    (hfound : ResponseCache.mapGet s.cache key = some e)
    (hexp : e.ttl < now - e.timestamp) :
    (ResponseCache.get s key now).1 = none ∧
    ResponseCache.mapGet (ResponseCache.get s key now).2.cache key = none ∧
    (ResponseCache.has (ResponseCache.get s key now).2 key now').1 = false := by
  have hget : ResponseCache.get s key now =
      (none, { s with cache := ResponseCache.mapDelete s.cache key
                      accessOrder := ResponseCache.removeFromAccessOrder s.accessOrder key }) := by
    simp [ResponseCache.get, hen, hfound, hexp]
  have hdel : ResponseCache.mapGet (ResponseCache.get s key now).2.cache key = none := by
    rw [hget]
    exact ResponseCache.mapGet_mapDelete_self s.cache key hnd
  refine ⟨by rw [hget], hdel, ?_⟩
  rw [hget] at hdel ⊢
  simp [ResponseCache.has, ResponseCache.get, hen, hdel]

/-- Witness for C7 at the spec's concrete scenario: TTL 1000 ms,
`set("k","v")` at time 0, `get("k")` at time 1100. -/
theorem c7_witness :
    (ResponseCache.get (ResponseCache.set
      (ResponseCache.emptyCache String ⟨1000, 100, true⟩) "k" "v" none 0)
      "k" 1100).1 = none ∧
    ResponseCache.mapGet (ResponseCache.get (ResponseCache.set
      (ResponseCache.emptyCache String ⟨1000, 100, true⟩) "k" "v" none 0)
      "k" 1100).2.cache "k" = none ∧
    (ResponseCache.has (ResponseCache.get (ResponseCache.set
      (ResponseCache.emptyCache String ⟨1000, 100, true⟩) "k" "v" none 0)
      "k" 1100).2 "k" 1100).1 = false :=
  c7_expired_get_removes _ "k" 1100 1100 ⟨"v", 0, 1000⟩
    (by decide) (by decide) (by decide) (by decide)

/-- Claim C2, counterexample: an enabled `ResponseCache` constructed with
`maxSize = 0` holds exactly `maxSize` entries (zero), yet a `set` with a
new key evicts nothing (`evictOldest` is a no-op on an empty access order)
and inserts, leaving the entry count strictly above `maxSize`. -/
theorem c2_counterexample :
    (ResponseCache.emptyCache String ⟨1000, 0, true⟩).options.enabled = true ∧
    (ResponseCache.emptyCache String ⟨1000, 0, true⟩).cache.length =
      (ResponseCache.emptyCache String ⟨1000, 0, true⟩).options.maxSize ∧
    ResponseCache.mapGet (ResponseCache.emptyCache String ⟨1000, 0, true⟩).cache "k" = none ∧
    (ResponseCache.emptyCache String ⟨1000, 0, true⟩).options.maxSize <
      (ResponseCache.set (ResponseCache.emptyCache String ⟨1000, 0, true⟩)
        "k" "v" none 0).cache.length := by
  refine ⟨rfl, rfl, rfl, ?_⟩
  decide

/-- Claim C2 (amended): for every enabled, well-formed `ResponseCache` with
`maxSize ≥ 1` currently holding exactly `maxSize` entries, a `set` with a
key not already present evicts exactly one entry — the head of the access
order, i.e. the least-recently-touched key — then inserts the new entry,
so the count still equals `maxSize`; every other entry is untouched. -/
theorem c2_lru_eviction {α : Type} (s : ResponseCache.CacheState α)
    (key : String) (v : α) (ttlArg : Option Int) (now : Int)
    (hwf : ResponseCache.WF s) (hen : s.options.enabled = true)
    (hfull : s.cache.length = s.options.maxSize)
    (hpos : 0 < s.options.maxSize)
    (hnew : ResponseCache.mapGet s.cache key = none) :
    ∃ oldest rest, s.accessOrder = oldest :: rest ∧ oldest ≠ key ∧
      (ResponseCache.set s key v ttlArg now).cache.length = s.options.maxSize ∧
      ResponseCache.mapGet (ResponseCache.set s key v ttlArg now).cache oldest = none ∧
      ResponseCache.mapGet (ResponseCache.set s key v ttlArg now).cache key =
        some ⟨v, now, ttlArg.getD s.options.ttl⟩ ∧
      ∀ k', k' ≠ oldest → k' ≠ key →
        ResponseCache.mapGet (ResponseCache.set s key v ttlArg now).cache k' =
          ResponseCache.mapGet s.cache k' := by
  obtain ⟨hndao, hperm⟩ := hwf
  have hndk : (s.cache.map Prod.fst).Nodup := hperm.symm.nodup hndao
  have hlen : s.accessOrder.length = s.options.maxSize := by
    rw [← hperm.length_eq, List.length_map, hfull]
  obtain ⟨oldest, rest, hao⟩ : ∃ o r, s.accessOrder = o :: r := by
    cases hx : s.accessOrder with
    | nil => rw [hx] at hlen; simp at hlen; omega
    | cons o r => exact ⟨o, r, rfl⟩
  have holdmem : oldest ∈ s.cache.map Prod.fst := by
    rw [hperm.mem_iff, hao]; exact List.mem_cons_self _ _
  have hkeynot : key ∉ s.cache.map Prod.fst := by
    intro hmem
    have := ResponseCache.mapGet_isSome_of_mem s.cache key hmem
    rw [hnew] at this
    simp at this
  have hne : oldest ≠ key := fun hh => hkeynot (hh ▸ holdmem)
  have hcache : (ResponseCache.set s key v ttlArg now).cache =
      ResponseCache.mapSet (ResponseCache.mapDelete s.cache oldest) key
        ⟨v, now, ttlArg.getD s.options.ttl⟩ := by
    simp [ResponseCache.set, hen, hnew, hfull, ResponseCache.evictOldest, hao]
  have hdelnd : ResponseCache.mapGet (ResponseCache.mapDelete s.cache oldest) key = none := by
    rw [ResponseCache.mapGet_mapDelete_ne s.cache oldest key hne.symm]
    exact hnew
  refine ⟨oldest, rest, hao, hne, ?_, ?_, ?_, ?_⟩
  · rw [hcache, ResponseCache.mapSet_of_not_found _ _ _ hdelnd]
    rw [List.length_append, List.length_singleton]
    rw [ResponseCache.length_mapDelete_of_mem s.cache oldest holdmem, hfull]
  · rw [hcache, ResponseCache.mapGet_mapSet_ne _ _ _ _ hne]
    exact ResponseCache.mapGet_mapDelete_self s.cache oldest hndk
  · rw [hcache]
    exact ResponseCache.mapGet_mapSet_self _ _ _
  · intro k' hko hkk
    rw [hcache, ResponseCache.mapGet_mapSet_ne _ _ _ _ hkk,
      ResponseCache.mapGet_mapDelete_ne _ _ _ hko]

/-- Witness for the amended C2: a two-entry cache at capacity 2; inserting
a third key evicts exactly the least-recently-touched key "a" and keeps
"b" untouched. -/
theorem c2_witness :
    (ResponseCache.set (ResponseCache.set
      (ResponseCache.emptyCache String ⟨1000, 2, true⟩) "a" "x" none 0)
      "b" "y" none 1).accessOrder = "a" :: ["b"] ∧
    ("a" : String) ≠ "c" ∧
    (ResponseCache.set (ResponseCache.set (ResponseCache.set
      (ResponseCache.emptyCache String ⟨1000, 2, true⟩) "a" "x" none 0)
      "b" "y" none 1) "c" "z" none 5).cache.length = 2 ∧
    ResponseCache.mapGet (ResponseCache.set (ResponseCache.set (ResponseCache.set
      (ResponseCache.emptyCache String ⟨1000, 2, true⟩) "a" "x" none 0)
      "b" "y" none 1) "c" "z" none 5).cache "a" = none ∧
    ResponseCache.mapGet (ResponseCache.set (ResponseCache.set (ResponseCache.set
      (ResponseCache.emptyCache String ⟨1000, 2, true⟩) "a" "x" none 0)
      "b" "y" none 1) "c" "z" none 5).cache "c" = some ⟨"z", 5, 1000⟩ ∧
    ResponseCache.mapGet (ResponseCache.set (ResponseCache.set (ResponseCache.set
      (ResponseCache.emptyCache String ⟨1000, 2, true⟩) "a" "x" none 0)
      "b" "y" none 1) "c" "z" none 5).cache "b" =
    ResponseCache.mapGet (ResponseCache.set (ResponseCache.set
      (ResponseCache.emptyCache String ⟨1000, 2, true⟩) "a" "x" none 0)
      "b" "y" none 1).cache "b" := by
  obtain ⟨oldest, rest, hao, hne, hlen, hold, hkey, hoth⟩ :=
    c2_lru_eviction (ResponseCache.set (ResponseCache.set
      (ResponseCache.emptyCache String ⟨1000, 2, true⟩) "a" "x" none 0)
      "b" "y" none 1) "c" "z" none 5
      ⟨by decide, by decide⟩ (by decide) (by decide) (by decide) (by decide)
  have hao' : oldest = "a" ∧ rest = ["b"] := by
    have hcalc : (ResponseCache.set (ResponseCache.set
        (ResponseCache.emptyCache String ⟨1000, 2, true⟩) "a" "x" none 0)
        "b" "y" none 1).accessOrder = "a" :: ["b"] := by decide
    rw [hcalc] at hao
    exact ⟨(List.cons.inj hao.symm).1, (List.cons.inj hao.symm).2⟩
  obtain ⟨ho, hr⟩ := hao'
  subst ho
  refine ⟨by decide, by decide, hlen, hold, hkey, ?_⟩
  exact hoth "b" (by decide) (by decide)

/-! ## RateLimiter invariant lemmas -/

namespace RateLimiter

theorem refill_opts (s : RLState) (e : ℚ) : (refill s e).opts = s.opts := rfl

theorem refill_inv (s : RLState) (e : ℚ) (hinv : RLInv s) (he : 0 ≤ e) :
    RLInv (refill s e) := by
  obtain ⟨h0, _, hpm, hpr⟩ := hinv
  refine ⟨?_, ?_, hpm, hpr⟩
  · exact le_min hpm.le (add_nonneg h0 (mul_nonneg (div_nonneg he (by norm_num)) hpr.le))
  · exact min_le_left _ _

theorem acquire_inv (s : RLState) (n e sl : ℚ) (hinv : RLInv s)
    (hn0 : 0 ≤ n) (hnm : n ≤ s.opts.maxTokens) (he : 0 ≤ e) (hsl : 0 ≤ sl) :
    RLInv (acquire s n e sl) := by
  have h1 := refill_inv s e hinv he
  obtain ⟨h10, h1max, hpm, hpr⟩ := h1
  unfold acquire
  by_cases hc : n ≤ (refill s e).tokens
  · simp only [if_pos hc]
    refine ⟨?_, ?_, hpm, hpr⟩
    · show (0 : ℚ) ≤ (refill s e).tokens - n
      linarith
    · show (refill s e).tokens - n ≤ (refill s e).opts.maxTokens
      linarith
  · simp only [if_neg hc]
    set t := (refill s e).tokens with ht
    set r := s.opts.refillRate with hr
    have hrne : r ≠ 0 := ne_of_gt hpr
    have hAeq : ((n - t) / r * 1000 + sl) / 1000 * r
        = (n - t) + sl / 1000 * r := by
      field_simp
      ring
    have hA : (n - t) ≤ ((n - t) / r * 1000 + sl) / 1000 * r := by
      rw [hAeq]
      have : 0 ≤ sl / 1000 * r := mul_nonneg (div_nonneg hsl (by norm_num)) hpr.le
      linarith
    have htokens2 : n ≤ min s.opts.maxTokens (t + ((n - t) / r * 1000 + sl) / 1000 * r) := by
      refine le_min hnm ?_
      linarith
    refine ⟨?_, ?_, hpm, hpr⟩
    · simpa [refill] using sub_nonneg.mpr htokens2
    · have hle : min s.opts.maxTokens (t + ((n - t) / r * 1000 + sl) / 1000 * r)
          ≤ s.opts.maxTokens := min_le_left _ _
      have : min s.opts.maxTokens (t + ((n - t) / r * 1000 + sl) / 1000 * r) - n
          ≤ s.opts.maxTokens := le_trans (sub_le_self _ hn0) hle
      simpa [refill] using this

theorem rlStep_inv (s : RLState) (op : RLOp) (hinv : RLInv s)
    (hv : RLOpValid s op) : RLInv (rlStep s op) := by
  cases op with
  | tryAcq n e =>
      obtain ⟨hn0, he⟩ := hv
      have h1 := refill_inv s e hinv he
      obtain ⟨h10, h1max, hpm, hpr⟩ := h1
      simp only [rlStep, tryAcquire]
      by_cases hc : n ≤ (refill s e).tokens
      · simp only [if_pos hc]
        refine ⟨?_, ?_, hpm, hpr⟩
        · show (0 : ℚ) ≤ (refill s e).tokens - n
          linarith
        · show (refill s e).tokens - n ≤ (refill s e).opts.maxTokens
          linarith
      · simp only [if_neg hc]
        exact ⟨h10, h1max, hpm, hpr⟩
  | acq n e sl =>
      obtain ⟨hn0, hnm, he, hsl⟩ := hv
      exact acquire_inv s n e sl hinv hn0 hnm he hsl
  | waitTime n e =>
      have h1 := refill_inv s e hinv hv
      simp only [rlStep, getWaitTime]
      by_cases hc : n ≤ (refill s e).tokens
      · simpa [if_pos hc] using h1
      · simpa [if_neg hc] using h1
  | avail e =>
      exact refill_inv s e hinv hv
  | doReset =>
      obtain ⟨_, _, hpm, hpr⟩ := hinv
      exact ⟨hpm.le, le_refl _, hpm, hpr⟩
  | setOpts p =>
      obtain ⟨h0, _, _, _⟩ := hinv
      obtain ⟨hm', hr'⟩ := hv
      exact ⟨le_min h0 hm'.le, min_le_right _ _, hm', hr'⟩

end RateLimiter

/-- Claim C6, counterexample: on a full bucket with `maxTokens = 1` and
`refillRate = 1`, `acquire(2)` waits for the computed shortfall, refills
(capped at `maxTokens`), then force-debits 2, driving the token count to
−1 — below the claimed floor of zero. -/
theorem c6_counterexample :
    RateLimiter.RLInv ⟨1, 1, 1⟩ ∧
    (RateLimiter.rlStep ⟨1, 1, 1⟩ (.acq 2 0 0)).tokens < 0 := by
  constructor
  · exact ⟨by norm_num, by norm_num, by norm_num, by norm_num⟩
  · norm_num [RateLimiter.rlStep, RateLimiter.acquire, RateLimiter.refill]

/-- Claim C6 (amended): across every sequence of operations whose elapsed
times are nonnegative, whose token requests are nonnegative, whose
`acquire` calls request at most the configured capacity, and whose
`setOptions` calls keep the configuration positive, the token count stays
within `[0, maxTokens]` at every intermediate state.  (Without the
`acquire`-request bound the floor fails, as the counterexample shows.) -/
theorem c6_tokens_bounded (s : RateLimiter.RLState) (ops : List RateLimiter.RLOp)
    (hinv : RateLimiter.RLInv s) (hv : RateLimiter.RLValid s ops) :
    ∀ k, RateLimiter.RLInv (RateLimiter.rlRun s (ops.take k)) := by
  induction ops generalizing s with
  | nil =>
      intro k
      simpa [RateLimiter.rlRun] using hinv
  | cons op ops ih =>
      intro k
      cases k with
      | zero => simpa [RateLimiter.rlRun] using hinv
      | succ k =>
          have h1 := RateLimiter.rlStep_inv s op hinv hv.1
          simpa [RateLimiter.rlRun] using ih (RateLimiter.rlStep s op) h1 hv.2 k

/-- Witness for the amended C6: a bucket of capacity 10 under a
try-acquire, a waiting acquire, and a reset keeps its count in range. -/
theorem c6_witness :
    RateLimiter.RLInv ⟨10, 10, 1⟩ ∧
    RateLimiter.RLValid ⟨10, 10, 1⟩
      [.tryAcq 1 0, .acq 10 0 5, .doReset] ∧
    RateLimiter.RLInv (RateLimiter.rlRun ⟨10, 10, 1⟩
      ([.tryAcq 1 0, .acq 10 0 5, .doReset].take 3)) := by
  have h1 : RateLimiter.RLInv ⟨10, 10, 1⟩ :=
    ⟨by norm_num, by norm_num, by norm_num, by norm_num⟩
  have h2 : RateLimiter.RLValid ⟨10, 10, 1⟩ [.tryAcq 1 0, .acq 10 0 5, .doReset] := by
    refine ⟨⟨by norm_num, by norm_num⟩, ⟨by norm_num, ?_, by norm_num, by norm_num⟩, trivial, trivial⟩
    norm_num [RateLimiter.rlStep, RateLimiter.tryAcquire, RateLimiter.refill]
  exact ⟨h1, h2, c6_tokens_bounded _ _ h1 h2 3⟩

/-- Claim C8: a history whose estimated token total is within `maxTokens`
round-trips through `compress` unchanged — the identical sequence. -/
theorem c8_compress_under_budget_id (o : Compressor.CompressionOptions)
    (h : List Compressor.Content)
    (hle : Compressor.totalTokens o h ≤ o.maxTokens) :
    Compressor.compress o h = h := by
  unfold Compressor.compress
  by_cases h0 : h.length = 0
  · rw [if_pos h0, List.length_eq_zero.mp h0]
  · rw [if_neg h0, if_pos hle]

/-- Witness for C8: one short user turn (2 characters ≈ 1 token) under the
default 8000-token budget. -/
theorem c8_witness :
    Compressor.totalTokens Compressor.defaultCompression
      [⟨"user", some [⟨some "hi", none, none, false⟩]⟩] ≤
      Compressor.defaultCompression.maxTokens ∧
    Compressor.compress Compressor.defaultCompression
      [⟨"user", some [⟨some "hi", none, none, false⟩]⟩] =
      [⟨"user", some [⟨some "hi", none, none, false⟩]⟩] :=
  ⟨by decide, c8_compress_under_budget_id _ _ (by decide)⟩

/-- Claim C10: a history over the token budget whose length is at most
`preserveRecentTurns * 2` is returned unchanged by `compress` — the whole
history lands in the always-preserved recent window — so the output's
estimated token total is not bounded by `maxTokens`. -/
theorem c10_recent_window_uncompressed (o : Compressor.CompressionOptions)
    (h : List Compressor.Content)
    (hgt : o.maxTokens < Compressor.totalTokens o h)
    (hlen : h.length ≤ o.preserveRecentTurns * 2) :
    Compressor.compress o h = h ∧
    o.maxTokens < Compressor.totalTokens o (Compressor.compress o h) := by
  have h0 : h.length ≠ 0 := by
    intro hh
    rw [List.length_eq_zero.mp hh] at hgt
    simp [Compressor.totalTokens] at hgt
  have hid : Compressor.compress o h = h := by
    unfold Compressor.compress
    rw [if_neg h0, if_neg (by omega)]
    have hpf : h.length - o.preserveRecentTurns * 2 = 0 := by omega
    simp [hpf, Compressor.olderLoop]
  exact ⟨hid, hid.symm ▸ hgt⟩

/-- Witness for C10: a single 8-character turn (2 tokens) against a
1-token budget with the default recent window of 8 turns. -/
theorem c10_witness :
    (1 : Nat) < Compressor.totalTokens ⟨1, 4, true, 4⟩
      [⟨"user", some [⟨some "abcdefgh", none, none, false⟩]⟩] ∧
    ([⟨"user", some [⟨some "abcdefgh", none, none, false⟩]⟩] :
      List Compressor.Content).length ≤ 4 * 2 ∧
    Compressor.compress ⟨1, 4, true, 4⟩
      [⟨"user", some [⟨some "abcdefgh", none, none, false⟩]⟩] =
      [⟨"user", some [⟨some "abcdefgh", none, none, false⟩]⟩] ∧
    (1 : Nat) < Compressor.totalTokens ⟨1, 4, true, 4⟩
      (Compressor.compress ⟨1, 4, true, 4⟩
        [⟨"user", some [⟨some "abcdefgh", none, none, false⟩]⟩]) := by
  have := c10_recent_window_uncompressed ⟨1, 4, true, 4⟩
    [⟨"user", some [⟨some "abcdefgh", none, none, false⟩]⟩]
    (by decide) (by decide)
  exact ⟨by decide, by decide, this.1, this.2⟩

/-! ## ModelFallback sort and invariant lemmas -/

namespace ModelFallback

theorem sortByPriority_cons (a : MFModel) (l : List MFModel) :
    sortByPriority (a :: l) = insertByPriority a (sortByPriority l) := rfl

theorem length_insertByPriority (m : MFModel) (l : List MFModel) :
    (insertByPriority m l).length = l.length + 1 := by
  induction l with
  | nil => rfl
  | cons x xs ih =>
      by_cases hc : m.priority ≤ x.priority
      · simp [insertByPriority, hc]
      · simp [insertByPriority, hc, ih]

theorem length_sortByPriority (l : List MFModel) :
    (sortByPriority l).length = l.length := by
  induction l with
  | nil => rfl
  | cons x xs ih => rw [sortByPriority_cons, length_insertByPriority, ih, List.length_cons]

theorem sortByPriority_head_min (l : List MFModel) (m : MFModel)
    (rest : List MFModel) (h : sortByPriority l = m :: rest) :
    m ∈ l ∧ ∀ x ∈ l, m.priority ≤ x.priority := by
  induction l generalizing m rest with
  | nil => simp [sortByPriority] at h
  | cons a l ih =>
      rw [sortByPriority_cons] at h
      cases hs : sortByPriority l with
      | nil =>
          rw [hs] at h
          simp only [insertByPriority] at h
          obtain ⟨hm, _⟩ := List.cons.inj h
          have hl : l = [] := by
            have hlen := congrArg List.length hs
            rw [length_sortByPriority] at hlen
            exact List.length_eq_zero.mp (by simpa using hlen)
          subst hl
          subst hm
          exact ⟨List.mem_singleton_self _, by simp⟩
      | cons b t =>
          rw [hs] at h
          have hb := ih b t hs
          by_cases hc : a.priority ≤ b.priority
          · rw [insertByPriority, if_pos hc] at h
            obtain ⟨h1, _⟩ := List.cons.inj h
            subst h1
            refine ⟨List.mem_cons_self _ _, ?_⟩
            intro x hx
            rcases List.mem_cons.mp hx with rfl | hx
            · exact le_refl _
            · exact le_trans hc (hb.2 x hx)
          · rw [insertByPriority, if_neg hc] at h
            obtain ⟨h1, _⟩ := List.cons.inj h
            subst h1
            push_neg at hc
            refine ⟨List.mem_cons_of_mem _ hb.1, ?_⟩
            intro x hx
            rcases List.mem_cons.mp hx with rfl | hx
            · exact hc.le
            · exact hb.2 x hx

theorem healthyModels_models (l : List MFModel) (c : Option String) :
    healthyModels ⟨l, c⟩ = l.filter (fun m => m.healthy) := rfl

theorem updateCurrentModel_isLowest (s : MFState) :
    IsLowestHealthy (updateCurrentModel s) := by
  cases hs : sortByPriority (healthyModels s) with
  | nil =>
      left
      have hlen := congrArg List.length hs
      rw [length_sortByPriority] at hlen
      have hempty : healthyModels s = [] := List.length_eq_zero.mp (by simpa using hlen)
      constructor
      · simpa [updateCurrentModel, healthyModels] using hempty
      · simp [updateCurrentModel, hs]
  | cons m rest =>
      right
      have hmin := sortByPriority_head_min _ m rest hs
      refine ⟨m, ?_, ?_, ?_⟩
      · simpa [updateCurrentModel, healthyModels] using hmin.1
      · simp [updateCurrentModel, hs]
      · intro x hx
        exact hmin.2 x (by simpa [updateCurrentModel, healthyModels] using hx)

end ModelFallback

/-- Claim C5, counterexample: register A (priority 1) and B (priority 2),
drive A unhealthy with three failures (`maxFailures = 3`, so the current
model becomes B), then `recordSuccess("A")`.  A is healthy again and is
the unique lowest-priority healthy model, but `recordSuccess` never calls
`updateCurrentModel`, so the cached current model is still B — stale. -/
theorem c5_counterexample :
    (ModelFallback.recordSuccess (ModelFallback.recordFailure ⟨3, 60000, true⟩
      (ModelFallback.recordFailure ⟨3, 60000, true⟩ (ModelFallback.recordFailure ⟨3, 60000, true⟩
        (ModelFallback.addModel (ModelFallback.addModel ModelFallback.mfInitial "A" 1) "B" 2)
        "A" 10) "A" 11) "A" 12) "A").currentModel = some "B" ∧
    (∃ m ∈ ModelFallback.healthyModels (ModelFallback.recordSuccess
      (ModelFallback.recordFailure ⟨3, 60000, true⟩ (ModelFallback.recordFailure ⟨3, 60000, true⟩
        (ModelFallback.recordFailure ⟨3, 60000, true⟩ (ModelFallback.addModel
          (ModelFallback.addModel ModelFallback.mfInitial "A" 1) "B" 2)
        "A" 10) "A" 11) "A" 12) "A"),
      m.model = "A" ∧ m.priority = 1) ∧
    (∀ x ∈ ModelFallback.healthyModels (ModelFallback.recordSuccess
      (ModelFallback.recordFailure ⟨3, 60000, true⟩ (ModelFallback.recordFailure ⟨3, 60000, true⟩
        (ModelFallback.recordFailure ⟨3, 60000, true⟩ (ModelFallback.addModel
          (ModelFallback.addModel ModelFallback.mfInitial "A" 1) "B" 2)
        "A" 10) "A" 11) "A" 12) "A"),
      x.model ≠ "A" → 1 < x.priority) ∧
    (ModelFallback.recordSuccess (ModelFallback.recordFailure ⟨3, 60000, true⟩
      (ModelFallback.recordFailure ⟨3, 60000, true⟩ (ModelFallback.recordFailure ⟨3, 60000, true⟩
        (ModelFallback.addModel (ModelFallback.addModel ModelFallback.mfInitial "A" 1) "B" 2)
        "A" 10) "A" 11) "A" 12) "A").currentModel ≠ some "A" := by
  decide

/-- Claim C5 (amended): the current model equals a lowest-priority healthy
model (or is absent when none is healthy) after `addModel`, after
`forceHealthy`/`forceUnhealthy` of a registered model, after a
`recordFailure` that reaches `maxFailures` for a registered model, and
after `removeModel` from a previously consistent registry.
`recordSuccess`, however, does not recompute the current model, which can
stay stale until the next recomputing mutation or a `getCurrentModel`
read with auto-recovery enabled. -/
theorem c5_current_model_recomputed (o : ModelFallback.MFOptions)
    (s : ModelFallback.MFState) (model id : String) (priority : Int) (now : Int) :
    ModelFallback.IsLowestHealthy (ModelFallback.addModel s model priority) ∧
    (ModelFallback.registryGet s.models id ≠ none →
      ModelFallback.IsLowestHealthy (ModelFallback.forceHealthy s id)) ∧
    (ModelFallback.registryGet s.models id ≠ none →
      ModelFallback.IsLowestHealthy (ModelFallback.forceUnhealthy s id)) ∧
    ((∃ c, ModelFallback.registryGet s.models id = some c ∧
        o.maxFailures ≤ c.failureCount + 1) →
      ModelFallback.IsLowestHealthy (ModelFallback.recordFailure o s id now)) ∧
    (ModelFallback.IsLowestHealthy s →
      ModelFallback.IsLowestHealthy (ModelFallback.removeModel s id)) := by
  refine ⟨?_, ?_, ?_, ?_, ?_⟩
  · simp only [ModelFallback.addModel]
    exact ModelFallback.updateCurrentModel_isLowest _
  · intro hreg
    cases hg : ModelFallback.registryGet s.models id with
    | none => exact absurd hg hreg
    | some c =>
        simp only [ModelFallback.forceHealthy, hg]
        exact ModelFallback.updateCurrentModel_isLowest _
  · intro hreg
    cases hg : ModelFallback.registryGet s.models id with
    | none => exact absurd hg hreg
    | some c =>
        simp only [ModelFallback.forceUnhealthy, hg]
        exact ModelFallback.updateCurrentModel_isLowest _
  · rintro ⟨c, hg, hge⟩
    simp only [ModelFallback.recordFailure, hg]
    rw [if_pos hge]
    exact ModelFallback.updateCurrentModel_isLowest _
  · intro hpre
    unfold ModelFallback.removeModel
    by_cases hcur : ({ s with models := s.models.filter (fun m => ¬ m.model = id) } :
        ModelFallback.MFState).currentModel = some id
    · rw [if_pos hcur]
      exact ModelFallback.updateCurrentModel_isLowest _
    · rw [if_neg hcur]
      rcases hpre with ⟨hh, hc⟩ | ⟨m, hm, hcurm, hmin⟩
      · left
        have hall : ∀ x ∈ s.models, ¬ x.healthy := by
          intro x hx hxh
          have : x ∈ ModelFallback.healthyModels s := by
            simp [ModelFallback.healthyModels, List.mem_filter, hx, hxh]
          rw [hh] at this
          simp at this
        constructor
        · simp only [ModelFallback.healthyModels]
          rw [List.filter_eq_nil_iff]
          intro x hx
          have hx' : x ∈ s.models := List.mem_of_mem_filter hx
          simpa using hall x hx'
        · exact hc
      · right
        have hmne : m.model ≠ id := by
          intro hh
          exact hcur (by simpa [hh] using hcurm)
        have hm' : m ∈ s.models ∧ m.healthy := by
          have := List.mem_filter.mp hm
          exact ⟨this.1, by simpa using this.2⟩
        refine ⟨m, ?_, hcurm, ?_⟩
        · simp only [ModelFallback.healthyModels]
          rw [List.mem_filter]
          refine ⟨?_, by simpa using hm'.2⟩
          rw [List.mem_filter]
          exact ⟨hm'.1, by simpa using hmne⟩
        · intro x hx
          apply hmin
          simp only [ModelFallback.healthyModels] at hx ⊢
          rw [List.mem_filter] at hx ⊢
          exact ⟨List.mem_of_mem_filter hx.1, hx.2⟩

/-- Witness for the amended C5: a concrete two-model registry exercising
the `addModel` conjunct and the `recordFailure`-reaching-threshold
conjunct (with `maxFailures = 1` the single failure of "A" reaches the
threshold). -/
theorem c5_witness :
    ModelFallback.registryGet (ModelFallback.addModel
      (ModelFallback.addModel ModelFallback.mfInitial "A" 1) "B" 2).models "A" =
      some ⟨"A", 1, true, 0, none⟩ ∧
    (⟨1, 60000, true⟩ : ModelFallback.MFOptions).maxFailures ≤ 0 + 1 ∧
    ModelFallback.IsLowestHealthy (ModelFallback.addModel
      (ModelFallback.addModel ModelFallback.mfInitial "A" 1) "B" 2) ∧
    ModelFallback.IsLowestHealthy (ModelFallback.recordFailure ⟨1, 60000, true⟩
      (ModelFallback.addModel (ModelFallback.addModel ModelFallback.mfInitial "A" 1) "B" 2)
      "A" 10) := by
  have h := c5_current_model_recomputed ⟨1, 60000, true⟩
    (ModelFallback.addModel (ModelFallback.addModel ModelFallback.mfInitial "A" 1) "B" 2)
    "A" "A" 1 10
  have h0 := c5_current_model_recomputed ⟨1, 60000, true⟩
    (ModelFallback.addModel ModelFallback.mfInitial "A" 1) "B" "A" 2 10
  refine ⟨by decide, by decide, h0.1, ?_⟩
  exact h.2.2.2.1 ⟨⟨"A", 1, true, 0, none⟩, by decide, by decide⟩

/-! ## CircuitBreaker lemmas -/

namespace CircuitBreaker

theorem not_shouldOpen_of_small (o : CBOptions) (s : CBState)
    (h1 : s.failures.length + s.successes.length < o.failureThreshold) :
    ¬ shouldOpen o s := by
  intro h
  rcases h with h | h
  · omega
  · cases hx : o.successRateThreshold with
    | none => simp only [hx] at h
    | some v =>
        simp only [hx] at h
        exact absurd h.1 (by omega)

end CircuitBreaker

/-- Claim C3: with `failureThreshold = 3` and all three failures inside the
window, a fresh breaker stays CLOSED after two failures, trips to OPEN on
the third with `isAllowed() = false`; once `resetTimeout` has elapsed a
state read transitions to HALF_OPEN; one success there closes the circuit
and clears both timestamp lists; one failure there reopens it. -/
theorem c3_circuit_breaker_scenario (rt w t0 t1 t2 t3 t4 t5 : Int)
    (θ : Option ℚ) (hrt : 0 < rt) (hw : 0 < w) (h12 : t1 ≤ t2) (h23 : t2 ≤ t3)
    (hwin : t3 - w < t1) (h34 : rt ≤ t4 - t3) :
    let o : CircuitBreaker.CBOptions := ⟨3, rt, w, θ⟩
    let s1 := CircuitBreaker.recordFailure o (CircuitBreaker.initial t0) t1
    let s2 := CircuitBreaker.recordFailure o s1 t2
    let s3 := CircuitBreaker.recordFailure o s2 t3
    let s4 := (CircuitBreaker.getState o s3 t4).1
    s1.state = .closed ∧ s2.state = .closed ∧ s3.state = .opened ∧
    (CircuitBreaker.isAllowed o s3 t3).2 = false ∧
    (CircuitBreaker.getState o s3 t4).2 = .halfOpen ∧
    (CircuitBreaker.recordSuccess o s4 t5).state = .closed ∧
    (CircuitBreaker.recordSuccess o s4 t5).failures = [] ∧
    (CircuitBreaker.recordSuccess o s4 t5).successes = [] ∧
    (CircuitBreaker.recordFailure o s4 t5).state = .opened := by
  intro o s1 s2 s3 s4
  have hc1 : t1 - w < t1 := by omega
  have hc2a : t2 - w < t1 := by omega
  have hc2b : t2 - w < t2 := by omega
  have hc3a : t3 - w < t1 := hwin
  have hc3b : t3 - w < t2 := by omega
  have hc3c : t3 - w < t3 := by omega
  have e1 : s1 = ⟨.closed, [t1], [], t1, t0⟩ := by
    show CircuitBreaker.recordFailure o (CircuitBreaker.initial t0) t1 = _
    have hno : ¬ CircuitBreaker.shouldOpen o
        ⟨.closed, [t1], [], t1, t0⟩ :=
      CircuitBreaker.not_shouldOpen_of_small _ _ (by simp)
    simp only [CircuitBreaker.recordFailure, CircuitBreaker.initial,
      CircuitBreaker.cleanupOldRecords, List.nil_append, List.filter_cons,
      List.filter_nil]
    simp [hno, hc1]
  have e2 : s2 = ⟨.closed, [t1, t2], [], t2, t0⟩ := by
    show CircuitBreaker.recordFailure o s1 t2 = _
    rw [e1]
    have hno : ¬ CircuitBreaker.shouldOpen o
        ⟨.closed, [t1, t2], [], t2, t0⟩ :=
      CircuitBreaker.not_shouldOpen_of_small _ _ (by simp)
    simp only [CircuitBreaker.recordFailure,
      CircuitBreaker.cleanupOldRecords, List.cons_append, List.nil_append,
      List.filter_cons, List.filter_nil]
    simp [hno, hc2a, hc2b]
  have e3 : s3 = ⟨.opened, [t1, t2, t3], [], t3, t3⟩ := by
    show CircuitBreaker.recordFailure o s2 t3 = _
    rw [e2]
    have hyes : CircuitBreaker.shouldOpen o ⟨.closed, [t1, t2, t3], [], t3, t0⟩ :=
      Or.inl (by simp)
    simp only [CircuitBreaker.recordFailure,
      CircuitBreaker.cleanupOldRecords, List.cons_append, List.nil_append,
      List.filter_cons, List.filter_nil]
    simp [hyes, hc3a, hc3b, hc3c, CircuitBreaker.transitionTo]
  have e4 : (CircuitBreaker.getState o s3 t4) =
      (⟨.halfOpen, [t1, t2, t3], [], t3, t4⟩, .halfOpen) := by
    show CircuitBreaker.getState o s3 t4 = _
    rw [e3]
    simp [CircuitBreaker.getState, CircuitBreaker.checkStateTransition,
      CircuitBreaker.transitionTo, h34]
  have e4s : s4 = ⟨.halfOpen, [t1, t2, t3], [], t3, t4⟩ := by
    show (CircuitBreaker.getState o s3 t4).1 = _
    rw [e4]
  refine ⟨?_, ?_, ?_, ?_, ?_, ?_, ?_, ?_, ?_⟩
  · rw [e1]
  · rw [e2]
  · rw [e3]
  · rw [e3]
    have hlt : ¬ rt ≤ (0 : Int) := by omega
    simp [CircuitBreaker.isAllowed, CircuitBreaker.getState,
      CircuitBreaker.checkStateTransition, hlt]
  · rw [e4]
  · rw [e4s]
    simp [CircuitBreaker.recordSuccess, CircuitBreaker.cleanupOldRecords,
      CircuitBreaker.transitionTo]
  · rw [e4s]
    simp [CircuitBreaker.recordSuccess, CircuitBreaker.cleanupOldRecords,
      CircuitBreaker.transitionTo]
  · rw [e4s]
    simp [CircuitBreaker.recordSuccess, CircuitBreaker.cleanupOldRecords,
      CircuitBreaker.transitionTo]
  · rw [e4s]
    simp [CircuitBreaker.recordFailure, CircuitBreaker.cleanupOldRecords,
      CircuitBreaker.transitionTo]

/-- Witness for C3 at the spec's end-to-end numbers: `resetTimeout = 10000`,
`windowMs = 60000`, success-rate threshold one half, failures at
1000/2000/3000, a read at 13001, and the half-open probe at 13002. -/
theorem c3_witness :
    ((0 : Int) < 10000 ∧ (0 : Int) < 60000 ∧ (1000 : Int) ≤ 2000 ∧
      (2000 : Int) ≤ 3000 ∧ (3000 : Int) - 60000 < 1000 ∧
      (10000 : Int) ≤ 13001 - 3000) ∧
    ((CircuitBreaker.recordFailure ⟨3, 10000, 60000, some (1/2)⟩
        (CircuitBreaker.initial 0) 1000).state = .closed ∧
     (CircuitBreaker.recordFailure ⟨3, 10000, 60000, some (1/2)⟩
        (CircuitBreaker.recordFailure ⟨3, 10000, 60000, some (1/2)⟩
          (CircuitBreaker.initial 0) 1000) 2000).state = .closed ∧
     (CircuitBreaker.recordFailure ⟨3, 10000, 60000, some (1/2)⟩
        (CircuitBreaker.recordFailure ⟨3, 10000, 60000, some (1/2)⟩
          (CircuitBreaker.recordFailure ⟨3, 10000, 60000, some (1/2)⟩
            (CircuitBreaker.initial 0) 1000) 2000) 3000).state = .opened ∧
     (CircuitBreaker.isAllowed ⟨3, 10000, 60000, some (1/2)⟩
        (CircuitBreaker.recordFailure ⟨3, 10000, 60000, some (1/2)⟩
          (CircuitBreaker.recordFailure ⟨3, 10000, 60000, some (1/2)⟩
            (CircuitBreaker.recordFailure ⟨3, 10000, 60000, some (1/2)⟩
              (CircuitBreaker.initial 0) 1000) 2000) 3000) 3000).2 = false ∧
     (CircuitBreaker.getState ⟨3, 10000, 60000, some (1/2)⟩
        (CircuitBreaker.recordFailure ⟨3, 10000, 60000, some (1/2)⟩
          (CircuitBreaker.recordFailure ⟨3, 10000, 60000, some (1/2)⟩
            (CircuitBreaker.recordFailure ⟨3, 10000, 60000, some (1/2)⟩
              (CircuitBreaker.initial 0) 1000) 2000) 3000) 13001).2 = .halfOpen ∧
     (CircuitBreaker.recordSuccess ⟨3, 10000, 60000, some (1/2)⟩
        (CircuitBreaker.getState ⟨3, 10000, 60000, some (1/2)⟩
          (CircuitBreaker.recordFailure ⟨3, 10000, 60000, some (1/2)⟩
            (CircuitBreaker.recordFailure ⟨3, 10000, 60000, some (1/2)⟩
              (CircuitBreaker.recordFailure ⟨3, 10000, 60000, some (1/2)⟩
                (CircuitBreaker.initial 0) 1000) 2000) 3000) 13001).1 13002).state = .closed ∧
     (CircuitBreaker.recordSuccess ⟨3, 10000, 60000, some (1/2)⟩
        (CircuitBreaker.getState ⟨3, 10000, 60000, some (1/2)⟩
          (CircuitBreaker.recordFailure ⟨3, 10000, 60000, some (1/2)⟩
            (CircuitBreaker.recordFailure ⟨3, 10000, 60000, some (1/2)⟩
              (CircuitBreaker.recordFailure ⟨3, 10000, 60000, some (1/2)⟩
                (CircuitBreaker.initial 0) 1000) 2000) 3000) 13001).1 13002).failures = [] ∧
     (CircuitBreaker.recordSuccess ⟨3, 10000, 60000, some (1/2)⟩
        (CircuitBreaker.getState ⟨3, 10000, 60000, some (1/2)⟩
          (CircuitBreaker.recordFailure ⟨3, 10000, 60000, some (1/2)⟩
            (CircuitBreaker.recordFailure ⟨3, 10000, 60000, some (1/2)⟩
              (CircuitBreaker.recordFailure ⟨3, 10000, 60000, some (1/2)⟩
                (CircuitBreaker.initial 0) 1000) 2000) 3000) 13001).1 13002).successes = [] ∧
     (CircuitBreaker.recordFailure ⟨3, 10000, 60000, some (1/2)⟩
        (CircuitBreaker.getState ⟨3, 10000, 60000, some (1/2)⟩
          (CircuitBreaker.recordFailure ⟨3, 10000, 60000, some (1/2)⟩
            (CircuitBreaker.recordFailure ⟨3, 10000, 60000, some (1/2)⟩
              (CircuitBreaker.recordFailure ⟨3, 10000, 60000, some (1/2)⟩
                (CircuitBreaker.initial 0) 1000) 2000) 3000) 13001).1 13002).state = .opened) :=
  ⟨⟨by norm_num, by norm_num, by norm_num, by norm_num, by norm_num, by norm_num⟩,
    c3_circuit_breaker_scenario 10000 60000 0 1000 2000 3000 13001 13002
      (some (1/2)) (by norm_num) (by norm_num) (by norm_num) (by norm_num)
      (by norm_num) (by norm_num)⟩

/-! ## RequestDeduplicator lemmas -/

namespace Dedup

theorem dedupBatch_all_found (ps : List DedupParams) (m : List (String × Nat))
    (nid : Nat) (k : String) (kv : String × Nat)
    (hall : ∀ q ∈ ps, hashRequest q = k)
    (hfind : m.find? (fun kv => kv.1 = k) = some kv) :
    dedupBatch m nid ps = (m, nid, List.replicate ps.length kv.2, 0) := by
  induction ps with
  | nil => rfl
  | cons p ps ih =>
      have hp : hashRequest p = k := hall p (List.mem_cons_self _ _)
      simp only [dedupBatch, dedupArrive, hp, hfind]
      rw [ih (fun q hq => hall q (List.mem_cons_of_mem _ hq))]
      simp [List.replicate_succ]

end Dedup

/-- Claim C1: a batch of concurrent `deduplicate` calls whose parameters
all hash to the same fingerprint, arriving before the first settles,
invokes the executor exactly once; every caller awaits the first caller's
promise, so whatever outcome that promise settles to is the one outcome
every caller observes. -/
theorem c1_dedup_single_flight {α : Type} (p : Dedup.DedupParams)
    (ps : List Dedup.DedupParams) (outcome : Nat → α)
    (hsame : ∀ q ∈ ps, Dedup.hashRequest q = Dedup.hashRequest p) :
    (Dedup.dedupBatch [] 0 (p :: ps)).2.2.2 = 1 ∧
    (Dedup.dedupBatch [] 0 (p :: ps)).2.2.1 = List.replicate (ps.length + 1) 0 ∧
    ((Dedup.dedupBatch [] 0 (p :: ps)).2.2.1).map outcome =
      List.replicate (ps.length + 1) (outcome 0) := by
  have hfind : ([(Dedup.hashRequest p, 0)]).find?
      (fun kv => kv.1 = Dedup.hashRequest p) = some (Dedup.hashRequest p, 0) := by
    simp
  have hb := Dedup.dedupBatch_all_found ps [(Dedup.hashRequest p, 0)] 1
    (Dedup.hashRequest p) (Dedup.hashRequest p, 0) hsame hfind
  have hwhole : Dedup.dedupBatch [] 0 (p :: ps) =
      ([(Dedup.hashRequest p, 0)], 1, 0 :: List.replicate ps.length 0, 1) := by
    simp only [Dedup.dedupBatch, Dedup.dedupArrive, List.find?_nil, List.nil_append]
    rw [hb]
    simp
  rw [hwhole]
  refine ⟨rfl, by simp [List.replicate_succ], ?_⟩
  simp [List.replicate_succ, List.map_replicate]

/-- Witness for C1: two identical concrete requests; the executor runs
once and both callers await promise 0, observing the same outcome. -/
theorem c1_witness :
    (Dedup.dedupBatch [] 0
      [⟨"m", .jstr "c", none⟩, ⟨"m", .jstr "c", none⟩]).2.2.2 = 1 ∧
    (Dedup.dedupBatch [] 0
      [⟨"m", .jstr "c", none⟩, ⟨"m", .jstr "c", none⟩]).2.2.1 =
      List.replicate 2 0 ∧
    ((Dedup.dedupBatch [] 0
      [⟨"m", .jstr "c", none⟩, ⟨"m", .jstr "c", none⟩]).2.2.1).map
        (fun n => n + 7) = List.replicate 2 7 :=
  c1_dedup_single_flight ⟨"m", .jstr "c", none⟩ [⟨"m", .jstr "c", none⟩]
    (fun n => n + 7)
    (fun q hq => by
      rcases List.mem_singleton.mp hq with rfl
      rfl)

/-! ## ModelFallback executeWithFallback lemmas -/

namespace ModelFallback

theorem executeWithFallback_cons {α : Type} (o : MFOptions) (s : MFState)
    (fn : String → Except JsError α) (now : Int) (m : MFModel) (ms : List MFModel)
    (h : sortByPriority (healthyModels s) = m :: ms) :
    executeWithFallback o s fn now = tryModels o fn now s (m :: ms) none := by
  unfold executeWithFallback
  rw [h]

theorem tryModels_nil {α : Type} (o : MFOptions)
    (fn : String → Except JsError α) (now : Int) (s : MFState)
    (le : Option JsError) :
    tryModels o fn now s [] le =
      (match le with
       | some e => .error (.thrown e)
       | none => .error .allModelsFailed, [], s) := by
  rw [tryModels.eq_def]

theorem tryModels_cons_eligible {α : Type} (o : MFOptions)
    (fn : String → Except JsError α) (now : Int) (s : MFState) (m : MFModel)
    (rest : List MFModel) (le : Option JsError) (e : JsError)
    (he : fn m.model = .error e) (hf : shouldFallback e = true) :
    tryModels o fn now s (m :: rest) le =
      ((tryModels o fn now (recordFailure o s m.model now) rest (some e)).1,
       m.model :: (tryModels o fn now (recordFailure o s m.model now) rest (some e)).2.1,
       (tryModels o fn now (recordFailure o s m.model now) rest (some e)).2.2) := by
  conv_lhs => rw [tryModels]
  rw [he]
  simp [hf]

theorem tryModels_cons_terminal {α : Type} (o : MFOptions)
    (fn : String → Except JsError α) (now : Int) (s : MFState) (m : MFModel)
    (rest : List MFModel) (le : Option JsError) (e : JsError)
    (he : fn m.model = .error e) (hf : shouldFallback e = false) :
    tryModels o fn now s (m :: rest) le =
      (.error (.thrown e), [m.model], recordFailure o s m.model now) := by
  conv_lhs => rw [tryModels]
  rw [he]
  simp [hf]

theorem tryModels_all_fail {α : Type} (o : MFOptions)
    (fn : String → Except JsError α) (now : Int) :
    ∀ (ms : List MFModel) (s : MFState) (le : Option JsError),
      (∀ m ∈ ms, ∃ e, fn m.model = .error e ∧ shouldFallback e = true) →
      ∀ mlast, ms.getLast? = some mlast →
      ∃ elast s', fn mlast.model = .error elast ∧
        tryModels o fn now s ms le =
          (.error (.thrown elast), ms.map (fun m => m.model), s')
  | [], s, le => by
      intro _ mlast hlast
      simp at hlast
  | m :: rest, s, le => by
      intro hall mlast hlast
      obtain ⟨e, he, hf⟩ := hall m (List.mem_cons_self _ _)
      cases hr : rest with
      | nil =>
          rw [hr] at hlast
          simp only [List.getLast?_singleton, Option.some.injEq] at hlast
          subst hlast
          refine ⟨e, recordFailure o s m.model now, he, ?_⟩
          rw [tryModels_cons_eligible o fn now s m [] le e he hf, tryModels_nil]
          rfl
      | cons r1 rest' =>
          rw [hr] at hlast
          rw [List.getLast?_cons_cons] at hlast
          obtain ⟨elast, s', hlaste, heq⟩ :=
            tryModels_all_fail o fn now (r1 :: rest')
              (recordFailure o s m.model now) (some e)
              (fun q hq => hall q (List.mem_cons_of_mem _ (hr ▸ hq)))
              mlast hlast
          refine ⟨elast, s', hlaste, ?_⟩
          rw [tryModels_cons_eligible o fn now s m (r1 :: rest') le e he hf, heq]
          rfl

theorem tryModels_terminal {α : Type} (o : MFOptions)
    (fn : String → Except JsError α) (now : Int) :
    ∀ (pre : List MFModel) (m : MFModel) (post : List MFModel) (e : JsError)
      (s : MFState) (le : Option JsError),
      (∀ q ∈ pre, ∃ eq, fn q.model = .error eq ∧ shouldFallback eq = true) →
      fn m.model = .error e → shouldFallback e = false →
      ∃ s', tryModels o fn now s (pre ++ m :: post) le =
        (.error (.thrown e), pre.map (fun q => q.model) ++ [m.model], s')
  | [], m, post, e, s, le => by
      intro _ hm hterm
      refine ⟨recordFailure o s m.model now, ?_⟩
      rw [List.nil_append, tryModels_cons_terminal o fn now s m post le e hm hterm]
      rfl
  | q :: pre', m, post, e, s, le => by
      intro hpre hm hterm
      obtain ⟨eq, heq, hfq⟩ := hpre q (List.mem_cons_self _ _)
      obtain ⟨s', hs'⟩ := tryModels_terminal o fn now pre' m post e
        (recordFailure o s q.model now) (some eq)
        (fun x hx => hpre x (List.mem_cons_of_mem _ hx)) hm hterm
      refine ⟨s', ?_⟩
      rw [List.cons_append,
        tryModels_cons_eligible o fn now s q (pre' ++ m :: post) le eq heq hfq, hs']
      rfl

end ModelFallback

/-- Claim C4: during `executeWithFallback`, an error whose truthy
HTTP-like status lies in [400, 500) and is not 429 is terminal — the loop
stops at that model and the error propagates, with no later model tried —
while every fallback-eligible failure is recorded and the loop moves to
the next healthy model in ascending priority order; when every healthy
model fails with an eligible error, the last model's error is rethrown. -/
theorem c4_fallback_error_policy {α : Type} (o : ModelFallback.MFOptions)
    (s : ModelFallback.MFState) (fn : String → Except ModelFallback.JsError α)
    (now : Int) :
    (∀ pre m post e,
      ModelFallback.sortByPriority (ModelFallback.healthyModels s) = pre ++ m :: post →
      (∀ q ∈ pre, ∃ eq, fn q.model = .error eq ∧ ModelFallback.shouldFallback eq = true) →
      fn m.model = .error e → ModelFallback.shouldFallback e = false →
      ∃ s', ModelFallback.executeWithFallback o s fn now =
        (.error (.thrown e), pre.map (fun q => q.model) ++ [m.model], s')) ∧
    (∀ mlast,
      (ModelFallback.sortByPriority (ModelFallback.healthyModels s)).getLast? = some mlast →
      (∀ q ∈ ModelFallback.sortByPriority (ModelFallback.healthyModels s),
        ∃ eq, fn q.model = .error eq ∧ ModelFallback.shouldFallback eq = true) →
      ∃ elast s', fn mlast.model = .error elast ∧
        ModelFallback.executeWithFallback o s fn now =
          (.error (.thrown elast),
           (ModelFallback.sortByPriority (ModelFallback.healthyModels s)).map
             (fun m => m.model), s')) := by
  constructor
  · intro pre m post e hsort hpre hm hterm
    obtain ⟨s', hs'⟩ := ModelFallback.tryModels_terminal o fn now pre m post e s none
      hpre hm hterm
    refine ⟨s', ?_⟩
    cases hp : pre ++ m :: post with
    | nil => exact absurd hp (List.append_ne_nil_of_right_ne_nil _ (List.cons_ne_nil _ _))
    | cons a t =>
        rw [ModelFallback.executeWithFallback_cons o s fn now a t (by rw [hsort, hp]),
          ← hp, hs']
  · intro mlast hlast hall
    obtain ⟨elast, s', hlaste, heq⟩ := ModelFallback.tryModels_all_fail o fn now
      (ModelFallback.sortByPriority (ModelFallback.healthyModels s)) s none hall mlast hlast
    refine ⟨elast, s', hlaste, ?_⟩
    cases hp : ModelFallback.sortByPriority (ModelFallback.healthyModels s) with
    | nil => rw [hp] at hlast; simp at hlast
    | cons a t =>
        rw [ModelFallback.executeWithFallback_cons o s fn now a t hp, ← hp, heq]

/-- Witness for C4: models A (priority 1) and B (priority 2); A fails with
a 500 (eligible), B fails with a 404 (terminal): the loop tries A then B
and rethrows the 404 without trying anything past B. -/
theorem c4_witness :
    (ModelFallback.executeWithFallback ⟨3, 60000, true⟩
      (ModelFallback.addModel (ModelFallback.addModel ModelFallback.mfInitial "A" 1) "B" 2)
      (fun id => if id = "A" then (.error ⟨true, some 500, none⟩ : Except ModelFallback.JsError Nat)
                 else .error ⟨true, some 404, none⟩) 0).1 =
      .error (.thrown ⟨true, some 404, none⟩) ∧
    (ModelFallback.executeWithFallback ⟨3, 60000, true⟩
      (ModelFallback.addModel (ModelFallback.addModel ModelFallback.mfInitial "A" 1) "B" 2)
      (fun id => if id = "A" then (.error ⟨true, some 500, none⟩ : Except ModelFallback.JsError Nat)
                 else .error ⟨true, some 404, none⟩) 0).2.1 = ["A", "B"] := by
  obtain ⟨s', hs'⟩ := (c4_fallback_error_policy ⟨3, 60000, true⟩
    (ModelFallback.addModel (ModelFallback.addModel ModelFallback.mfInitial "A" 1) "B" 2)
    (fun id => if id = "A" then (.error ⟨true, some 500, none⟩ : Except ModelFallback.JsError Nat)
               else .error ⟨true, some 404, none⟩) 0).1
    [⟨"A", 1, true, 0, none⟩] ⟨"B", 2, true, 0, none⟩ [] ⟨true, some 404, none⟩
    (by decide)
    (fun q hq => by
      rcases List.mem_singleton.mp hq with rfl
      exact ⟨⟨true, some 500, none⟩, rfl, by decide⟩)
    rfl (by decide)
  rw [hs']
  exact ⟨rfl, rfl⟩

/-! ## Cache-key collision (CachingContentGenerator + ResponseCache.hashKey) -/

namespace ResponseCache

theorem get_set_empty {α : Type} (o : CacheOptions) (k : String)
    (v : α) (t : Int) (hen : o.enabled = true) (hm : ¬ o.maxSize = 0)
    (ht : 0 ≤ o.ttl) :
    (get (set (emptyCache α o) k v none t) k t).1 = some v := by
  have hm' : ¬ o.maxSize ≤ 0 := fun h => hm (Nat.le_zero.mp h)
  have hexp : ¬ o.ttl < (0 : Int) := by omega
  simp [set, get, emptyCache, hen, hm', mapSet, mapGet, hexp]

end ResponseCache

/-- Claim C9: two `generateContent` cache keys that agree on model,
temperature, topK, topP and maxTokens but differ in `contents` are not
structurally identical, yet `hashKey` maps them to the same digest for
every digest function of the normalized string — `JSON.stringify` with
the sorted top-level key names as a replacer array drops every nested
property (`role`, `parts`, `text`), so both serialize to the same string —
and consequently a `get` for the second request returns the value that
was `set` for the first. -/
theorem c9_cache_key_collision :
    CachingGen.getCacheKey ⟨"gemini", .jarr [.jobj [("role", .jstr "user"),
        ("parts", .jarr [.jobj [("text", .jstr "hello")]])]],
      some ⟨some (.jnum 1), none, none, some (.jnum 100)⟩⟩ ≠
    CachingGen.getCacheKey ⟨"gemini", .jarr [.jobj [("role", .jstr "user"),
        ("parts", .jarr [.jobj [("text", .jstr "goodbye")]])]],
      some ⟨some (.jnum 1), none, none, some (.jnum 100)⟩⟩ ∧
    (∀ digest : String → String,
      ResponseCache.hashKey digest (CachingGen.getCacheKey ⟨"gemini",
        .jarr [.jobj [("role", .jstr "user"),
          ("parts", .jarr [.jobj [("text", .jstr "hello")]])]],
        some ⟨some (.jnum 1), none, none, some (.jnum 100)⟩⟩) =
      ResponseCache.hashKey digest (CachingGen.getCacheKey ⟨"gemini",
        .jarr [.jobj [("role", .jstr "user"),
          ("parts", .jarr [.jobj [("text", .jstr "goodbye")]])]],
        some ⟨some (.jnum 1), none, none, some (.jnum 100)⟩⟩)) ∧
    (∀ digest : String → String, ∀ resp : String,
      (ResponseCache.get
        (ResponseCache.set (ResponseCache.emptyCache String ResponseCache.defaultOptions)
          (ResponseCache.hashKey digest (CachingGen.getCacheKey ⟨"gemini",
            .jarr [.jobj [("role", .jstr "user"),
              ("parts", .jarr [.jobj [("text", .jstr "hello")]])]],
            some ⟨some (.jnum 1), none, none, some (.jnum 100)⟩⟩)) resp none 0)
        (ResponseCache.hashKey digest (CachingGen.getCacheKey ⟨"gemini",
          .jarr [.jobj [("role", .jstr "user"),
            ("parts", .jarr [.jobj [("text", .jstr "goodbye")]])]],
          some ⟨some (.jnum 1), none, none, some (.jnum 100)⟩⟩)) 0).1 = some resp) := by
  have hnorm : ResponseCache.normalizeKey (CachingGen.getCacheKey ⟨"gemini",
      .jarr [.jobj [("role", .jstr "user"),
        ("parts", .jarr [.jobj [("text", .jstr "hello")]])]],
      some ⟨some (.jnum 1), none, none, some (.jnum 100)⟩⟩) =
      ResponseCache.normalizeKey (CachingGen.getCacheKey ⟨"gemini",
      .jarr [.jobj [("role", .jstr "user"),
        ("parts", .jarr [.jobj [("text", .jstr "goodbye")]])]],
      some ⟨some (.jnum 1), none, none, some (.jnum 100)⟩⟩) := by decide
  refine ⟨?_, ?_, ?_⟩
  · intro h
    simp [CachingGen.getCacheKey] at h
  · intro digest
    exact congrArg digest hnorm
  · intro digest resp
    have hkeys : ResponseCache.hashKey digest (CachingGen.getCacheKey ⟨"gemini",
        .jarr [.jobj [("role", .jstr "user"),
          ("parts", .jarr [.jobj [("text", .jstr "hello")]])]],
        some ⟨some (.jnum 1), none, none, some (.jnum 100)⟩⟩) =
        ResponseCache.hashKey digest (CachingGen.getCacheKey ⟨"gemini",
        .jarr [.jobj [("role", .jstr "user"),
          ("parts", .jarr [.jobj [("text", .jstr "goodbye")]])]],
        some ⟨some (.jnum 1), none, none, some (.jnum 100)⟩⟩) := congrArg digest hnorm
    rw [← hkeys]
    exact ResponseCache.get_set_empty ResponseCache.defaultOptions _ resp 0
      rfl (by norm_num [ResponseCache.defaultOptions])
      (by norm_num [ResponseCache.defaultOptions])
